import Mathlib

/-!
Verification of the browser-resident QuickBooks support-chat assistant
(repository `1danielschultz/test-ai-agent`).

The development shallowly embeds the response-resolution pipeline
(`SmolLMBrain` in `smol-brain.js`: `generateResponse`, `normalizeMessage`,
`cacheResponse`, `cleanResponse`, `isGenericResponse`,
`getQuickBooksGuidance`, `initialize`, `getStatus`) and the retrieval
module (`LocalRAG` in `rag-engine.js`: `identifyRelevantCategories`,
`calculateRelevanceScore`, `isKeywordMatch`,
`calculateLevenshteinDistance`).

Conventions of the embedding:
* JavaScript strings are Lean `String`s (lists of characters); `toLowerCase`
  is mapped per-character (all strings of interest here are ASCII).
* `String.prototype.includes` is substring containment on character lists.
* A JS `Map` (which remembers insertion order) is a `List (key × value)`
  in insertion order: `set` updates in place or appends, `delete` removes
  the first entry with the key, `keys().next().value` is the head key.
* The opaque model runtime is an oracle argument: `none` models a runtime
  exception or an absent handle (all exceptions in the source are caught
  locally, which the embedding reflects by totality), `some raw` models a
  completed inference returning the raw text.
* JS number division appears once (`matches / totalTriggers`); it is
  modelled in `Option ℚ`, with `none` for the `0 / 0 = NaN` case.
* Loops with an early-decreasing cursor (`String.replace` scanning) are
  given explicit fuel equal to the input length, which dominates the
  number of iterations.
-/

set_option maxRecDepth 8192

/-- JS `String.prototype.toLowerCase`, per character (ASCII-accurate,
which covers every string the source compares). -/
def jsToLower (s : String) : String :=
  String.mk (s.toList.map Char.toLower)

/-- The list `needle` occurs contiguously inside `haystack`. -/
def charsContain (needle : List Char) : List Char → Bool
  | [] => needle.isEmpty
  | c :: cs => needle.isPrefixOf (c :: cs) || charsContain needle cs

/-- JS `haystack.includes(needle)`: substring containment. -/
def jsIncludes (haystack needle : String) : Bool :=
  charsContain needle.toList haystack.toList

/-- Trim: drop whitespace from the front and the back of a character list
(JS `String.prototype.trim`, ASCII whitespace). -/
def trimChars (l : List Char) : List Char :=
  ((l.dropWhile Char.isWhitespace).reverse.dropWhile Char.isWhitespace).reverse

namespace LocalRAG

/-- The cell `matrix[j][i]` of row `j + 1` of the dynamic-programming table
of `LocalRAG.calculateLevenshteinDistance`, given row `j` as `prev`:
`matrix[j+1][0] = j+1`, and
`matrix[j+1][i+1] = min (matrix[j][i+1] + 1) (min (matrix[j+1][i] + 1)
(matrix[j][i] + cost))` with `cost = (a[i] == b[j] ? 0 : 1)`. -/
def levMatrixRow (a b : List Char) (prev : Nat → Nat) (j : Nat) : Nat → Nat
  | 0 => j + 1
  | i + 1 =>
      let cost : Nat := if a.getD i ' ' = b.getD j ' ' then 0 else 1
      min (prev (i + 1) + 1)
        (min (levMatrixRow a b prev j i + 1) (prev i + cost))

/-- The dynamic-programming table of
`LocalRAG.calculateLevenshteinDistance`: `levMatrix a b j i = matrix[j][i]`,
the edit distance between the first `i` characters of `a` and the first `j`
characters of `b`.  Row `0` is `matrix[0][i] = i`; row `j + 1` is filled
from row `j` by `levMatrixRow`. -/
def levMatrix (a b : List Char) : Nat → Nat → Nat
  | 0 => fun i => i
  | j + 1 => levMatrixRow a b (levMatrix a b j) j

/-- `LocalRAG.calculateLevenshteinDistance(a, b)`: returns
`matrix[b.length][a.length]` of the table above. -/
def calculateLevenshteinDistance (a b : String) : Nat :=
  levMatrix a.toList b.toList b.toList.length a.toList.length

/-- `LocalRAG.isKeywordMatch(userKeyword, triggerKeyword)`: exact match,
substring containment in either direction, or fuzzy match (edit distance
at most 1 when both strings have length at least 4). -/
def isKeywordMatch (userKeyword triggerKeyword : String) : Bool :=
  if userKeyword = triggerKeyword then true
  else if jsIncludes userKeyword triggerKeyword ∨
      jsIncludes triggerKeyword userKeyword then true
  else if calculateLevenshteinDistance userKeyword triggerKeyword ≤ 1 ∧
      4 ≤ min userKeyword.length triggerKeyword.length then true
  else false

/-- `LocalRAG.calculateRelevanceScore(userKeywords, triggerKeywords)`:
counts triggers having some matching user keyword (the inner loop with
`break` is `List.any`), then divides by the trigger count.  JS computes
`matches / totalTriggers` in floating point; for an empty trigger list
this is `0 / 0 = NaN`, modelled as `none`. -/
def calculateRelevanceScore (userKeywords triggerKeywords : List String) :
    Option ℚ :=
  let matchCount : Nat :=
    triggerKeywords.countP fun trigger =>
      userKeywords.any fun userKeyword => isKeywordMatch userKeyword trigger
  let totalTriggers : Nat := triggerKeywords.length
  if totalTriggers = 0 then none
  else some ((matchCount : ℚ) / (totalTriggers : ℚ))

/-- The five knowledge categories, in the declared order of
`this.categories = ['banking', 'invoicing', 'payroll', 'reports',
'inventory']`. -/
inductive Category where
  | banking
  | invoicing
  | payroll
  | reports
  | inventory
deriving DecidableEq, Repr

/-- The declared category order (`this.categories`), which is also the
iteration order of `Object.entries(categoryScores)`. -/
def categories : List Category :=
  [.banking, .invoicing, .payroll, .reports, .inventory]

/-- Per-category score of `LocalRAG.identifyRelevantCategories`: for each
keyword found in `searchIndex.keywords`, every category it maps to gets
`+1` (a category listed twice in the mapped array would be counted
twice, exactly as the inner `for` loop does). -/
def categoryScore (keywords : List String)
    (searchIndexKeywords : String → Option (List Category))
    (c : Category) : Nat :=
  (keywords.map fun k => ((searchIndexKeywords k).getD []).count c).sum

/-- Insertion step for the stable descending sort: the sort folds from
the right, so when `insertDescending p` runs, every entry already in the
list came *later* than `p` in the original order; `p` therefore goes in
front of every entry whose score is less than or equal to its own
(non-strict test), and stays behind entries with strictly greater
scores.  Equal-score entries thus keep their original relative order,
exactly as the (stable) JS `Array.prototype.sort` with comparator
`(a, b) => b - a`. -/
def insertDescending (p : Category × Nat) :
    List (Category × Nat) → List (Category × Nat)
  | [] => [p]
  | q :: rest =>
      if q.2 ≤ p.2 then p :: q :: rest else q :: insertDescending p rest

/-- Stable sort of score entries by descending score (JS
`entries.sort(([, a], [, b]) => b - a)`): a right fold of the stable
insertion step, so ties keep the order of the input list. -/
def sortByScoreDescending (l : List (Category × Nat)) :
    List (Category × Nat) :=
  l.foldr insertDescending []

/-- `LocalRAG.identifyRelevantCategories(keywords)`: score every declared
category, keep entries with score greater than zero, sort by descending
score (stable, so ties keep the declared order), and return the first two
category names. -/
def identifyRelevantCategories (keywords : List String)
    (searchIndexKeywords : String → Option (List Category)) :
    List Category :=
  let entries := categories.map fun c =>
    (c, categoryScore keywords searchIndexKeywords c)
  let kept := entries.filter fun p => 0 < p.2
  ((sortByScoreDescending kept).map Prod.fst).take 2

/-- Modelled from the spec (refinement counterpart for
`identifyRelevantCategories`): the per-category score is the number of
input keywords that map to the category, categories with positive score
are sorted descending with ties in declared order, truncated to the top
two. -/
def identifyRelevantCategoriesSpec (keywords : List String)
    (searchIndexKeywords : String → Option (List Category)) :
    List Category :=
  let score : Category → Nat := fun c =>
    keywords.countP fun k =>
      match searchIndexKeywords k with
      | some cs => decide (c ∈ cs)
      | none => false
  let entries := categories.map fun c => (c, score c)
  let kept := entries.filter fun p => 0 < p.2
  ((sortByScoreDescending kept).map Prod.fst).take 2

end LocalRAG

namespace SmolLMBrainModule

/-- JS `\w` character class (ASCII): letters, digits, underscore. -/
def isWordChar (c : Char) : Bool :=
  c.isAlphanum || c = '_'

/-- Collapse every maximal whitespace run to a single space
(JS `.replace(/\s+/g, ' ')`); the flag records whether the previous
character was part of a whitespace run. -/
def collapseWhitespaceAux : List Char → Bool → List Char
  | [], _ => []
  | c :: cs, afterWs =>
      if c.isWhitespace then
        if afterWs then collapseWhitespaceAux cs true
        else ' ' :: collapseWhitespaceAux cs true
      else c :: collapseWhitespaceAux cs false

/-- `SmolLMBrain.normalizeMessage(message)`: lowercase, drop characters
that are neither word characters nor whitespace
(JS `.replace(/[^\w\s]/g, '')`), collapse whitespace runs to single
spaces, trim, and keep the first 100 characters. -/
def normalizeMessage (message : String) : String :=
  let lowered := (jsToLower message).toList
  let wordOnly := lowered.filter fun c => isWordChar c || c.isWhitespace
  let collapsed := collapseWhitespaceAux wordOnly false
  String.mk ((trimChars collapsed).take 100)

/-- Replace every occurrence of `pat` (non-overlapping, left to right) by
`rep`, with explicit fuel; each step consumes at least one input
character, so fuel equal to the input length suffices
(JS `.replace(/pat/g, rep)` for a literal pattern). -/
def replaceChars (pat rep : List Char) : Nat → List Char → List Char
  | 0, l => l
  | _ + 1, [] => []
  | fuel + 1, c :: cs =>
      if pat.isPrefixOf (c :: cs) then
        rep ++ replaceChars pat rep fuel (cs.drop (pat.length - 1))
      else c :: replaceChars pat rep fuel cs

/-- JS global literal replacement `s.replace(/pat/g, rep)`. -/
def jsReplaceAll (s pat rep : String) : String :=
  String.mk (replaceChars pat.toList rep.toList s.toList.length s.toList)

/-- JS `.replace(/^assistant\s*/i, '')`: drop a case-insensitive leading
`assistant` token together with the whitespace after it. -/
def stripAssistantLabel (l : List Char) : List Char :=
  if (l.take 9).map Char.toLower = "assistant".toList then
    (l.drop 9).dropWhile Char.isWhitespace
  else l

/-- Sentence separator class of `cleanResponse` (JS `[.!?]+`). -/
def isSentenceBreak (c : Char) : Bool :=
  c = '.' || c = '!' || c = '?'

/-- JS `text.split(/[.!?]+/)`: split on maximal runs of sentence
separators; `acc` is the current chunk reversed, the flag records whether
the previous character was a separator (runs yield a single split). -/
def splitSentencesAux : List Char → List Char → Bool → List (List Char)
  | [], acc, _ => [acc.reverse]
  | c :: cs, acc, afterBreak =>
      if isSentenceBreak c then
        if afterBreak then splitSentencesAux cs acc true
        else acc.reverse :: splitSentencesAux cs [] true
      else splitSentencesAux cs (c :: acc) false

/-- `SmolLMBrain.cleanResponse(text)`: strip the `<|im_start|>` and
`<|im_end|>` role markers, strip a leading `assistant` label, trim, and
drop a trailing fragment shorter than 10 characters when splitting on
`.`/`!`/`?` leaves more than one piece (the popped list is re-joined with
`'.'` and a final `'.'` is appended). -/
def cleanResponse (text : String) : String :=
  let t1 := jsReplaceAll (jsReplaceAll text "<|im_start|>" "") "<|im_end|>" ""
  let t2 := String.mk (stripAssistantLabel t1.toList)
  let t3 := String.mk (trimChars t2.toList)
  let sentences := splitSentencesAux t3.toList [] false
  if 1 < sentences.length ∧ (trimChars (sentences.getLastD [])).length < 10
  then String.intercalate "." (sentences.dropLast.map String.mk) ++ "."
  else t3

/-- The `badPhrases` list of `SmolLMBrain.isGenericResponse`. -/
def badPhrases : List String :=
  ["I\x27m sorry for the confusion",
   "I\x27m unable to provide",
   "I\x27m not equipped to",
   "I can\x27t help with",
   "I don\x27t have access",
   "as a UDAS-guided AI",
   "I\x27m designed to assist you with your business needs"]

/-- `SmolLMBrain.isGenericResponse(text)`: the text contains one of the
generic/avoidant phrases (case-insensitively), or is shorter than 30
characters and contains `help` or `assist`. -/
def isGenericResponse (text : String) : Bool :=
  let hasGenericAvoidance := badPhrases.any fun phrase =>
    jsIncludes (jsToLower text) (jsToLower phrase)
  let tooShortAndGeneric := text.length < 30 &&
    (jsIncludes (jsToLower text) "help" || jsIncludes (jsToLower text) "assist")
  hasGenericAvoidance || tooShortAndGeneric

/-- The response cache: a JS `Map`, i.e. key-value pairs in insertion
order. -/
abbrev ResponseCache := List (String × String)

/-- `Map.prototype.get` composed with presence: the value stored under
`key`, scanning in insertion order. -/
def cacheLookup (cache : ResponseCache) (key : String) : Option String :=
  (cache.find? fun p => p.1 == key).map Prod.snd

/-- `Map.prototype.set`: update an existing key in place (keeping its
insertion position) or append a new entry at the end. -/
def mapSet (cache : ResponseCache) (key val : String) : ResponseCache :=
  if cache.any (fun p => p.1 == key) then
    cache.map fun p => if p.1 == key then (key, val) else p
  else cache ++ [(key, val)]

/-- `Map.prototype.delete`: remove the entry with the given key (a JS map
holds each key at most once, so removing the first occurrence is exact). -/
def mapDeleteFirst (cache : ResponseCache) (key : String) : ResponseCache :=
  cache.eraseP fun p => p.1 == key

/-- `this.maxCacheSize = 50`. -/
def maxCacheSize : Nat := 50

/-- `SmolLMBrain.cacheResponse(key, response)`: when the cache has reached
`maxCacheSize` entries, delete the entry under the first key in insertion
order (`this.responseCache.keys().next().value`), then `set` the new
entry. -/
def cacheResponse (cache : ResponseCache) (key val : String) :
    ResponseCache :=
  let evicted :=
    if maxCacheSize ≤ cache.length then
      match cache.head? with
      | some first => mapDeleteFirst cache first.1
      | none => cache
    else cache
  mapSet evicted key val

end SmolLMBrainModule

namespace SmolLMBrainModule

/-- Canned banking/connection answer of
`SmolLMBrain.getQuickBooksGuidance`. -/
def bankingAnswer : String :=
  "I understand how frustrating bank connection issues can be! Let\x27s work through this systematically using UDAS troubleshooting.\n\nFirst, let\x27s check the User layer - have you successfully logged into your bank\x27s website today using the same credentials you use for QuickBooks? I\x27m asking this because banks often require you to log in directly before allowing third-party connections.\n\nWhile you check that, here\x27s a quick tip: Most connection issues resolve when you verify your online banking is active first."

/-- Canned invoicing answer. -/
def invoicingAnswer : String :=
  "Create professional invoices in QuickBooks:\n\n1. Go to **Sales** → **Invoices** → **Create Invoice**\n2. Select or add customer details\n3. Add products/services with quantities and rates\n4. Set payment terms and due date\n5. Email directly or download PDF\n\n**Pro tip**: Set up recurring invoices for regular clients under **Recurring Transactions**."

/-- Canned expense-tracking answer. -/
def expensesAnswer : String :=
  "Track expenses efficiently:\n\n1. **Mobile**: Use QuickBooks app to photograph receipts instantly\n2. **Desktop**: Go to **Expenses** → **Add Expense**\n3. Enter vendor, amount, and category\n4. Upload receipt image\n5. Link to projects if applicable\n\n**Smart feature**: Receipt capture auto-extracts vendor, date, and amount data."

/-- Canned payroll answer. -/
def payrollAnswer : String :=
  "QuickBooks Payroll setup:\n\n1. **Upgrade**: Payroll requires subscription ($45/month + $6/employee)\n2. **Setup**: Go to **Payroll** → **Get Started**\n3. **Employees**: Add worker details, tax info, pay rates\n4. **Schedule**: Set pay frequency (weekly, bi-weekly, monthly)\n5. **Run**: Process payroll and handle tax filings automatically\n\n**Includes**: Direct deposit, tax calculations, W-2s, and compliance."

/-- Canned financial-reports answer. -/
def reportsAnswer : String :=
  "Generate key financial reports:\n\n**Profit & Loss**: Shows income vs expenses over time\n**Balance Sheet**: Assets, liabilities, and equity snapshot\n**Cash Flow**: Track money in/out by period\n\n**Steps**: **Reports** → Search report name → Select date range → **Run Report**\n\n**Customize**: Filter by class, location, or customer for detailed analysis."

/-- Canned tax answer. -/
def taxAnswer : String :=
  "QuickBooks tax features:\n\n**Sales Tax**: **Taxes** → **Sales Tax** → Set up rates and track automatically\n**1099s**: **Payroll** → **Contractors** → Generate 1099-NEC forms\n**Deductions**: Categorize expenses properly for tax writeoffs\n**Export**: Send data directly to TurboTax or accountant\n\n**Year-end**: Run tax summary reports and backup your data."

/-- Canned inventory answer. -/
def inventoryAnswer : String :=
  "Manage inventory in QuickBooks:\n\n1. **Enable**: **Settings** → **Account & Settings** → **Sales** → Turn on inventory tracking\n2. **Add Items**: **Sales** → **Products & Services** → **New** → **Inventory**\n3. **Set Details**: SKU, cost, sale price, quantity on hand\n4. **Reorder**: Set reorder points for low stock alerts\n5. **Track**: Quantities auto-update with sales and purchases\n\n**Reports**: Use inventory reports to monitor stock levels and valuation."

/-- Canned troubleshooting answer. -/
def troubleshootingAnswer : String :=
  "QuickBooks troubleshooting steps:\n\n**Browser Issues**:\n• Clear cache and cookies\n• Try incognito/private mode\n• Disable browser extensions\n• Update browser to latest version\n\n**Sync Problems**:\n• Check internet connection\n• Update bank credentials\n• Refresh browser page\n\n**Need Help?**: Contact QuickBooks Support at **1-800-446-8848** or use in-app chat."

/-- The generic capability-overview default answer. -/
def defaultAnswer : String :=
  "I\x27m your QuickBooks Online AI assistant! I can help with:\n\n💰 **Banking** - Connect accounts, categorize transactions\n📄 **Invoicing** - Create professional invoices, set up recurring billing\n📊 **Reports** - P&L, Balance Sheet, Cash Flow analysis\n💼 **Expenses** - Receipt capture, expense tracking, tax deductions\n👥 **Payroll** - Employee management, tax compliance, direct deposit\n📦 **Inventory** - Stock tracking, reorder alerts, product management\n🔧 **Setup & Support** - Account configuration, troubleshooting\n\n**What specific QuickBooks task can I help you with today?**"

/-- `SmolLMBrain.getQuickBooksGuidance(userMessage)`: lowercase the raw
message and scan the ordered keyword groups; the first group with a
substring match wins, otherwise the default answer is returned. -/
def getQuickBooksGuidance (userMessage : String) : String :=
  let message := jsToLower userMessage
  if jsIncludes message "bank" || jsIncludes message "connect" ||
      jsIncludes message "link" then bankingAnswer
  else if jsIncludes message "invoice" || jsIncludes message "bill" ||
      jsIncludes message "customer" then invoicingAnswer
  else if jsIncludes message "expense" || jsIncludes message "receipt" ||
      jsIncludes message "cost" then expensesAnswer
  else if jsIncludes message "payroll" || jsIncludes message "employee" ||
      jsIncludes message "salary" then payrollAnswer
  else if jsIncludes message "report" || jsIncludes message "profit" ||
      jsIncludes message "loss" || jsIncludes message "financial" then
    reportsAnswer
  else if jsIncludes message "tax" || jsIncludes message "1099" ||
      jsIncludes message "deduction" then taxAnswer
  else if jsIncludes message "inventory" || jsIncludes message "product" ||
      jsIncludes message "stock" then inventoryAnswer
  else if jsIncludes message "error" || jsIncludes message "problem" ||
      jsIncludes message "not working" || jsIncludes message "issue" then
    troubleshootingAnswer
  else defaultAnswer

/-- Modelled from the spec (claim C6's reading of the rule fallback): the
same ordered scan, but with the error group containing exactly the
keywords the claim lists — `error`, `problem`, `issue` — without the
source's additional `not working` keyword. -/
def ruleFallbackClaimed (userMessage : String) : String :=
  let message := jsToLower userMessage
  if jsIncludes message "bank" || jsIncludes message "connect" ||
      jsIncludes message "link" then bankingAnswer
  else if jsIncludes message "invoice" || jsIncludes message "bill" ||
      jsIncludes message "customer" then invoicingAnswer
  else if jsIncludes message "expense" || jsIncludes message "receipt" ||
      jsIncludes message "cost" then expensesAnswer
  else if jsIncludes message "payroll" || jsIncludes message "employee" ||
      jsIncludes message "salary" then payrollAnswer
  else if jsIncludes message "report" || jsIncludes message "profit" ||
      jsIncludes message "loss" || jsIncludes message "financial" then
    reportsAnswer
  else if jsIncludes message "tax" || jsIncludes message "1099" ||
      jsIncludes message "deduction" then taxAnswer
  else if jsIncludes message "inventory" || jsIncludes message "product" ||
      jsIncludes message "stock" then inventoryAnswer
  else if jsIncludes message "error" || jsIncludes message "problem" ||
      jsIncludes message "issue" then troubleshootingAnswer
  else defaultAnswer

/-- Provenance tag of a produced answer, named after the `source` strings
of the code (`'cache'`, `'smollm2-local'`, `'enhanced-rules'`). -/
inductive ResponseSource where
  | cache
  | smollm2Local
  | enhancedRules
deriving DecidableEq, Repr

/-- The object returned by `SmolLMBrain.generateResponse`; the
still-loading sentinel has no `source` field, modelled by `none`. -/
structure BrainResponse where
  success : Bool
  message : String
  source : Option ResponseSource
deriving DecidableEq, Repr

/-- The mutable fields of `SmolLMBrain` the pipeline reads or writes.
`llamaCpp` and `model` record whether the respective handles are
non-null. -/
structure SmolLMBrain where
  isLoading : Bool
  isReady : Bool
  llamaCpp : Bool
  model : Bool
  responseCache : ResponseCache
  ragReady : Bool
deriving DecidableEq, Repr

/-- The state established by the `SmolLMBrain` constructor: nothing
loading, nothing ready, null handles, empty response cache. -/
def SmolLMBrain.construct : SmolLMBrain :=
  { isLoading := false, isReady := false, llamaCpp := false,
    model := false, responseCache := [], ragReady := false }

/-- Outcome of one `generateResponse` call: the returned response, the
state afterwards, and whether model/retrieval work was attempted (false
exactly on the still-loading, cache-hit, and null-handle paths). -/
structure ResolveResult where
  resp : BrainResponse
  state : SmolLMBrain
  inferenceInvoked : Bool
deriving DecidableEq, Repr

/-- The still-loading sentinel message. -/
def stillLoadingMessage : String :=
  "🤖 SmolLM2 model is still loading. Please wait..."

/-- `SmolLMBrain.generateResponse(userMessage)`.  `inferOutcome` is the
oracle for the `createCompletion` call: `some raw` is a completed
inference, `none` a runtime exception (the source catches it and falls
through to the rules).  Order of the source: still-loading sentinel;
cache lookup on the normalized key; model inference guarded by
`this.model && this.llamaCpp`, cleaned and quality-gated, cached and
returned on acceptance; otherwise the rule-based answer. -/
def generateResponse (st : SmolLMBrain) (inferOutcome : Option String)
    (userMessage : String) : ResolveResult :=
  if st.isReady = false then
    ⟨⟨false, stillLoadingMessage, none⟩, st, false⟩
  else
    let cacheKey := normalizeMessage userMessage
    match cacheLookup st.responseCache cacheKey with
    | some cached => ⟨⟨true, cached, some .cache⟩, st, false⟩
    | none =>
        if st.model && st.llamaCpp then
          match inferOutcome with
          | some raw =>
              let text := cleanResponse raw
              if 15 < text.length ∧ isGenericResponse text = false then
                ⟨⟨true, text, some .smollm2Local⟩,
                  { st with
                      responseCache :=
                        cacheResponse st.responseCache cacheKey text },
                  true⟩
              else
                ⟨⟨true, getQuickBooksGuidance userMessage,
                    some .enhancedRules⟩, st, true⟩
          | none =>
              ⟨⟨true, getQuickBooksGuidance userMessage,
                  some .enhancedRules⟩, st, true⟩
        else
          ⟨⟨true, getQuickBooksGuidance userMessage,
              some .enhancedRules⟩, st, false⟩

/-- Which sub-steps of initialization succeed: the dynamic import of the
Wllama module, the `new Wllama(...)` construction, the
`loadModelFromUrl` fetch, and the result of `rag.initialize()` (which
never throws: it catches internally and returns a boolean). -/
structure InitEnv where
  wasmImportOk : Bool
  constructOk : Bool
  fetchOk : Bool
  ragOk : Bool
deriving DecidableEq, Repr

/-- `SmolLMBrain.loadLlamaCppWasm()`: on import failure the catch block
nulls `llamaCpp` (and the WASM config); on success the class handle is
stored. -/
def loadLlamaCppWasm (st : SmolLMBrain) (env : InitEnv) : SmolLMBrain :=
  if env.wasmImportOk then { st with llamaCpp := true }
  else { st with llamaCpp := false }

/-- `SmolLMBrain.loadModel()`: returns early (keeping `model` null) when
the runtime is unavailable; otherwise construction and fetch must both
succeed, and any failure is caught, nulling `model` without throwing. -/
def loadModel (st : SmolLMBrain) (env : InitEnv) : SmolLMBrain :=
  if st.llamaCpp = false then st
  else if env.constructOk && env.fetchOk then { st with model := true }
  else { st with model := false }

/-- `SmolLMBrain.initializeRAG()`: stores the boolean result of
`rag.initialize()`; its catch block cannot fire because `rag.initialize`
catches internally. -/
def initializeRAG (st : SmolLMBrain) (env : InitEnv) : SmolLMBrain :=
  { st with ragReady := env.ragOk }

/-- `SmolLMBrain.initialize()` (named `initializeBrain` here): idempotent
guard, then the three loading sub-steps — each of which swallows its own
failures — then `isReady = true`.  Every path returns normally, so the
embedding is a total function to (returned boolean, new state). -/
def initializeBrain (st : SmolLMBrain) (env : InitEnv) :
    Bool × SmolLMBrain :=
  if st.isLoading || st.isReady then (st.isReady, st)
  else
    let st1 := { st with isLoading := true }
    let st2 := loadLlamaCppWasm st1 env
    let st3 := loadModel st2 env
    let st4 := initializeRAG st3 env
    (true, { st4 with isReady := true, isLoading := false })

/-- The status values of `SmolLMBrain.getStatus()`. -/
inductive Status where
  | loading
  | ready
  | offline
deriving DecidableEq, Repr

/-- `SmolLMBrain.getStatus()`: loading while `isLoading`, ready while
`isReady`, otherwise offline (`'SmolLM2 not loaded'`). -/
def getStatus (st : SmolLMBrain) : Status :=
  if st.isLoading then .loading
  else if st.isReady then .ready
  else .offline

end SmolLMBrainModule


namespace SmolLMBrainModule

/-- Invariant of the response cache in any reachable state: every stored
response passed the quality gate, so it is longer than 15 characters.
The freshly constructed cache is empty and satisfies it trivially. -/
def cacheWellFormed (c : ResponseCache) : Prop :=
  ∀ p ∈ c, 15 < p.2.length

end SmolLMBrainModule

open LocalRAG SmolLMBrainModule

/-- The full keyword list of the rule fallback, in scan order, including
the `not working` keyword of the error group. -/
def ruleKeywords : List String :=
  ["bank", "connect", "link",
   "invoice", "bill", "customer",
   "expense", "receipt", "cost",
   "payroll", "employee", "salary",
   "report", "profit", "loss", "financial",
   "tax", "1099", "deduction",
   "inventory", "product", "stock",
   "error", "problem", "not working", "issue"]

/-- Claim C5 (code bug): the claim and the spec define the relevance of an
empty trigger list as 0, but `calculateRelevanceScore` runs its loop zero
times and returns `matches / totalTriggers = 0 / 0`, which is `NaN` in
JavaScript (modelled as `none`) — not the number 0 — for every list of
user keywords. -/
theorem calculateRelevanceScore_empty_triggers_is_nan
    (userKeywords : List String) :
    calculateRelevanceScore userKeywords [] = none ∧
      calculateRelevanceScore userKeywords [] ≠ some 0 := by
  constructor <;> simp [calculateRelevanceScore]

/-- Claim C6 (counterexample): the message `"It is not working"` contains
none of the keywords of the groups the claim lists (its error group is
`error`/`problem`/`issue`), so under the claim it would get the default
answer; the code's error group also matches the substring `not working`,
so `getQuickBooksGuidance` returns the troubleshooting answer instead. -/
theorem ruleFallback_claimed_groups_counterexample :
    ruleFallbackClaimed "It is not working" = defaultAnswer ∧
      getQuickBooksGuidance "It is not working" = troubleshootingAnswer ∧
      troubleshootingAnswer ≠ defaultAnswer := by
  refine ⟨by decide, by decide, by decide⟩

/-- Claim C6 (amended): the rule fallback scans the lowercased message
against the ordered keyword groups, with the error group containing
`error`, `problem`, `not working`, and `issue`; the four fixed examples
produce the banking, reports, payroll, and default answers, and a message
containing none of the keywords (including `not working`) gets the
default answer.  The scan is a pure function of the message, hence
independent of inference availability. -/
theorem getQuickBooksGuidance_spec :
    getQuickBooksGuidance "How do I connect my bank account?"
        = bankingAnswer ∧
    getQuickBooksGuidance "I need a P&L report" = reportsAnswer ∧
    getQuickBooksGuidance "my payroll setup is broken" = payrollAnswer ∧
    getQuickBooksGuidance "xyzzy unrelated gibberish" = defaultAnswer ∧
    (∀ msg : String,
      (∀ kw ∈ ruleKeywords, jsIncludes (jsToLower msg) kw = false) →
      getQuickBooksGuidance msg = defaultAnswer) := by
  refine ⟨by decide, by decide, by decide, by decide, ?_⟩
  intro msg h
  have h01 := h "bank" (by decide)
  have h02 := h "connect" (by decide)
  have h03 := h "link" (by decide)
  have h04 := h "invoice" (by decide)
  have h05 := h "bill" (by decide)
  have h06 := h "customer" (by decide)
  have h07 := h "expense" (by decide)
  have h08 := h "receipt" (by decide)
  have h09 := h "cost" (by decide)
  have h10 := h "payroll" (by decide)
  have h11 := h "employee" (by decide)
  have h12 := h "salary" (by decide)
  have h13 := h "report" (by decide)
  have h14 := h "profit" (by decide)
  have h15 := h "loss" (by decide)
  have h16 := h "financial" (by decide)
  have h17 := h "tax" (by decide)
  have h18 := h "1099" (by decide)
  have h19 := h "deduction" (by decide)
  have h20 := h "inventory" (by decide)
  have h21 := h "product" (by decide)
  have h22 := h "stock" (by decide)
  have h23 := h "error" (by decide)
  have h24 := h "problem" (by decide)
  have h25 := h "not working" (by decide)
  have h26 := h "issue" (by decide)
  simp [getQuickBooksGuidance, h01, h02, h03, h04, h05, h06, h07, h08, h09,
    h10, h11, h12, h13, h14, h15, h16, h17, h18, h19, h20, h21, h22, h23,
    h24, h25, h26]

/-- Witness for `getQuickBooksGuidance_spec`: the no-keyword hypothesis is
discharged concretely at `"xyzzy unrelated gibberish"`. -/
theorem getQuickBooksGuidance_spec_witness :
    (∀ kw ∈ ruleKeywords,
      jsIncludes (jsToLower "xyzzy unrelated gibberish") kw = false) ∧
    getQuickBooksGuidance "xyzzy unrelated gibberish" = defaultAnswer :=
  ⟨by decide,
   getQuickBooksGuidance_spec.2.2.2.2 "xyzzy unrelated gibberish"
     (by decide)⟩

/-- Claim C4 (counterexample): run `initialize` on a freshly constructed
brain with every sub-step failing (runtime import, construction, and
model fetch all fail).  No exception propagates — `initialize` returns
`true` — but the adapter ends with `isReady = true` and `getStatus`
reports `ready`, not the offline/unavailable status the claim requires. -/
theorem initializeBrain_failure_status_counterexample :
    (initializeBrain SmolLMBrain.construct ⟨false, false, false, false⟩).1
        = true ∧
    (initializeBrain SmolLMBrain.construct
        ⟨false, false, false, false⟩).2.isReady = true ∧
    getStatus (initializeBrain SmolLMBrain.construct
        ⟨false, false, false, false⟩).2 = Status.ready ∧
    Status.ready ≠ Status.offline := by
  refine ⟨by decide, by decide, by decide, by decide⟩

/-- Claim C4 (amended): when any sub-step of initialization fails, no
exception propagates to the caller (`initialize` returns normally, with
value `true`), the model handle stays null, and the pipeline degrades to
rules-only answers for every message that misses the cache — but the
adapter ends `Ready`, not `Unavailable`: `getStatus` reports `ready`. -/
theorem initializeBrain_failure_degrades_to_rules
    (st : SmolLMBrain) (env : InitEnv)
    (hLoading : st.isLoading = false) (hReady : st.isReady = false)
    (hModel : st.model = false) :
    (initializeBrain st env).1 = true ∧
    (initializeBrain st env).2.isReady = true ∧
    getStatus (initializeBrain st env).2 = Status.ready ∧
    ((env.wasmImportOk = false ∨ env.constructOk = false ∨
        env.fetchOk = false) →
      (initializeBrain st env).2.model = false) ∧
    (∀ (inferOutcome : Option String) (msg : String),
      (initializeBrain st env).2.model = false →
      cacheLookup (initializeBrain st env).2.responseCache
          (normalizeMessage msg) = none →
      (generateResponse (initializeBrain st env).2 inferOutcome msg).resp
        = ⟨true, getQuickBooksGuidance msg, some .enhancedRules⟩) := by
  obtain ⟨w, c, f, r⟩ := env
  refine ⟨?_, ?_, ?_, ?_, ?_⟩
  · simp [initializeBrain, hLoading, hReady]
  · simp [initializeBrain, hLoading, hReady, loadLlamaCppWasm, loadModel,
      initializeRAG]
  · simp [initializeBrain, hLoading, hReady, loadLlamaCppWasm, loadModel,
      initializeRAG, getStatus]
  · intro hfail
    simp only [initializeBrain, hLoading, hReady]
    cases w <;> cases c <;> cases f <;>
      simp [loadLlamaCppWasm, loadModel, initializeRAG, hModel] <;>
      simp at hfail
  · intro inferOutcome msg hm hmiss
    have hr : (initializeBrain st ⟨w, c, f, r⟩).2.isReady = true := by
      simp [initializeBrain, hLoading, hReady, loadLlamaCppWasm, loadModel,
        initializeRAG]
    simp [generateResponse, hr, hmiss, hm]

/-- Witness for `initializeBrain_failure_degrades_to_rules`: instantiated
on the freshly constructed brain with every sub-step failing, and the
rules-only conclusion instantiated at the message `"hello"`. -/
theorem initializeBrain_failure_degrades_to_rules_witness :
    SmolLMBrain.construct.isLoading = false ∧
    getStatus (initializeBrain SmolLMBrain.construct
        ⟨false, false, false, false⟩).2 = Status.ready ∧
    (initializeBrain SmolLMBrain.construct
        ⟨false, false, false, false⟩).2.model = false ∧
    (generateResponse (initializeBrain SmolLMBrain.construct
        ⟨false, false, false, false⟩).2 none "hello").resp
      = ⟨true, getQuickBooksGuidance "hello", some .enhancedRules⟩ :=
  ⟨rfl,
   (initializeBrain_failure_degrades_to_rules SmolLMBrain.construct
      ⟨false, false, false, false⟩ rfl rfl rfl).2.2.1,
   (initializeBrain_failure_degrades_to_rules SmolLMBrain.construct
      ⟨false, false, false, false⟩ rfl rfl rfl).2.2.2.1 (Or.inl rfl),
   (initializeBrain_failure_degrades_to_rules SmolLMBrain.construct
      ⟨false, false, false, false⟩ rfl rfl rfl).2.2.2.2 none "hello"
     ((initializeBrain_failure_degrades_to_rules SmolLMBrain.construct
        ⟨false, false, false, false⟩ rfl rfl rfl).2.2.2.1 (Or.inl rfl))
     rfl⟩

namespace SmolLMBrainModule

theorem mapSet_length_le (c : ResponseCache) (k v : String) :
    (mapSet c k v).length ≤ c.length + 1 := by
  unfold mapSet
  split <;> simp

theorem mapSet_fresh (c : ResponseCache) (k v : String)
    (h : cacheLookup c k = none) : mapSet c k v = c ++ [(k, v)] := by
  have hany : c.any (fun p => p.1 == k) = false := by
    rw [List.any_eq_false]
    intro p hp hpk
    have hfind := List.find?_eq_none.mp (Option.map_eq_none'.mp h) p hp
    exact hfind hpk
  simp [mapSet, hany]

theorem cacheLookup_eq_none_of_not_mem (c : ResponseCache) (k : String)
    (h : k ∉ c.map Prod.fst) : cacheLookup c k = none := by
  unfold cacheLookup
  rw [Option.map_eq_none', List.find?_eq_none]
  intro p hp hpk
  exact h (List.mem_map.mpr ⟨p, hp, beq_iff_eq.mp hpk⟩)

theorem cacheLookup_append_none {c d : ResponseCache} {k : String}
    (h1 : cacheLookup c k = none) (h2 : cacheLookup d k = none) :
    cacheLookup (c ++ d) k = none := by
  unfold cacheLookup at *
  rw [Option.map_eq_none'] at h1 h2 ⊢
  rw [List.find?_append, h1, h2]
  rfl

theorem cacheResponse_of_lt (c : ResponseCache) (k v : String)
    (h : c.length < maxCacheSize) :
    cacheResponse c k v = mapSet c k v := by
  simp [cacheResponse, Nat.not_le.mpr h]

theorem cacheResponse_at_capacity (p : String × String)
    (rest : ResponseCache) (k v : String)
    (h : maxCacheSize ≤ (p :: rest).length) :
    cacheResponse (p :: rest) k v = mapSet rest k v := by
  simp only [cacheResponse, h, if_pos, List.head?_cons, mapDeleteFirst]
  rw [List.eraseP_cons_of_pos]
  exact beq_iff_eq.mpr rfl

theorem cacheResponse_length_le (c : ResponseCache) (k v : String)
    (h : c.length ≤ maxCacheSize) :
    (cacheResponse c k v).length ≤ maxCacheSize := by
  by_cases hc : maxCacheSize ≤ c.length
  · match c with
    | [] => simp [maxCacheSize] at hc
    | p :: rest =>
        rw [cacheResponse_at_capacity p rest k v hc]
        have := mapSet_length_le rest k v
        simp at h
        omega
  · rw [cacheResponse_of_lt c k v (Nat.not_le.mp hc)]
    have := mapSet_length_le c k v
    omega

theorem foldl_cacheResponse_length_le :
    ∀ (ops : List (String × String)) (c : ResponseCache),
    c.length ≤ maxCacheSize →
    (ops.foldl (fun acc p => cacheResponse acc p.1 p.2) c).length
      ≤ maxCacheSize
  | [], c, h => h
  | op :: rest, c, h => by
      rw [List.foldl_cons]
      exact foldl_cacheResponse_length_le rest _
        (cacheResponse_length_le c op.1 op.2 h)

theorem foldl_cacheResponse_fresh :
    ∀ (kvs : List (String × String)) (c : ResponseCache),
    (kvs.map Prod.fst).Nodup →
    (∀ k ∈ kvs.map Prod.fst, cacheLookup c k = none) →
    c.length + kvs.length ≤ maxCacheSize →
    kvs.foldl (fun acc p => cacheResponse acc p.1 p.2) c = c ++ kvs
  | [], c, _, _, _ => by simp
  | kv :: rest, c, hnd, hfresh, hlen => by
      rw [List.map_cons, List.nodup_cons] at hnd
      obtain ⟨hhead, hnd'⟩ := hnd
      have hkv : cacheLookup c kv.1 = none := hfresh kv.1 (by simp)
      have hlt : c.length < maxCacheSize := by
        simp only [List.length_cons] at hlen
        omega
      have hstep : cacheResponse c kv.1 kv.2 = c ++ [kv] := by
        rw [cacheResponse_of_lt c kv.1 kv.2 hlt, mapSet_fresh c kv.1 kv.2 hkv]
      rw [List.foldl_cons, hstep]
      have hfresh' : ∀ k ∈ rest.map Prod.fst,
          cacheLookup (c ++ [kv]) k = none := by
        intro k hk
        refine cacheLookup_append_none (hfresh k (by simp [hk])) ?_
        refine cacheLookup_eq_none_of_not_mem _ _ ?_
        simp only [List.map_cons, List.map_nil, List.mem_singleton]
        intro hkk
        exact hhead (hkk ▸ hk)
      have hlen' : (c ++ [kv]).length + rest.length ≤ maxCacheSize := by
        simp only [List.length_append, List.length_singleton,
          List.length_cons, List.length_nil] at hlen ⊢
        omega
      rw [foldl_cacheResponse_fresh rest (c ++ [kv]) hnd' hfresh' hlen']
      simp

end SmolLMBrainModule

/-- Claim C2: the response cache is bounded and FIFO.  (1) Starting from
the empty cache, any sequence of `cacheResponse` insertions leaves at
most `maxCacheSize = 50` entries.  (2) An insertion into a cache at
capacity removes exactly the single oldest-inserted (head) entry before
the new entry is set.  (3) Inserting `maxCacheSize + 1` distinct-keyed
answers into the empty cache leaves exactly `maxCacheSize` entries, and
the first-inserted key is no longer present. -/
theorem responseCache_bounded_fifo :
    (∀ ops : List (String × String),
      (ops.foldl (fun acc p => cacheResponse acc p.1 p.2) []).length
        ≤ maxCacheSize) ∧
    (∀ (p : String × String) (rest : ResponseCache) (k v : String),
      (p :: rest).length = maxCacheSize →
      cacheResponse (p :: rest) k v = mapSet rest k v) ∧
    (∀ (p₀ : String × String) (rest : List (String × String)),
      rest.length = maxCacheSize →
      ((p₀ :: rest).map Prod.fst).Nodup →
      ((p₀ :: rest).foldl
          (fun acc q => cacheResponse acc q.1 q.2) []).length
          = maxCacheSize ∧
        cacheLookup
          ((p₀ :: rest).foldl (fun acc q => cacheResponse acc q.1 q.2) [])
          p₀.1 = none) := by
  refine ⟨?_, ?_, ?_⟩
  · intro ops
    exact foldl_cacheResponse_length_le ops [] (by simp)
  · intro p rest k v h
    exact cacheResponse_at_capacity p rest k v (le_of_eq h.symm)
  · intro p₀ rest hlen hnd
    have hrest : rest ≠ [] := by
      intro h
      rw [h] at hlen
      simp [maxCacheSize] at hlen
    obtain ⟨mid, q, rfl⟩ : ∃ mid q, rest = mid ++ [q] := by
      refine ⟨rest.dropLast, rest.getLast hrest, ?_⟩
      rw [List.dropLast_append_getLast hrest]
    have hmidlen : mid.length = maxCacheSize - 1 := by
      rw [List.length_append, List.length_singleton] at hlen
      omega
    rw [List.map_cons, List.nodup_cons] at hnd
    obtain ⟨hp0, hrestnd⟩ := hnd
    rw [List.map_append] at hp0 hrestnd
    simp only [List.mem_append, not_or, List.map_cons, List.map_nil,
      List.mem_singleton] at hp0
    obtain ⟨hp0mid, hp0q⟩ := hp0
    rw [List.nodup_append] at hrestnd
    obtain ⟨hmidnd, _, hdisj⟩ := hrestnd
    have hqmid : q.1 ∉ mid.map Prod.fst := by
      intro hmem
      exact hdisj hmem (by simp)
    have hfold1 :
        (p₀ :: mid).foldl (fun acc z => cacheResponse acc z.1 z.2) []
          = p₀ :: mid := by
      have := foldl_cacheResponse_fresh (p₀ :: mid) []
        (by
          rw [List.map_cons, List.nodup_cons]
          exact ⟨hp0mid, hmidnd⟩)
        (fun k _ => cacheLookup_eq_none_of_not_mem [] k (by simp))
        (by
          simp only [List.length_nil, List.length_cons, hmidlen,
            maxCacheSize]
          omega)
      simpa using this
    have hsplit :
        (p₀ :: (mid ++ [q])).foldl (fun acc z => cacheResponse acc z.1 z.2) []
          = cacheResponse (p₀ :: mid) q.1 q.2 := by
      have hshape : p₀ :: (mid ++ [q]) = (p₀ :: mid) ++ [q] := by simp
      rw [hshape, List.foldl_append, hfold1]
      simp
    have hcap : maxCacheSize ≤ (p₀ :: mid).length := by
      simp only [List.length_cons, hmidlen, maxCacheSize]
      omega
    have hfinal :
        (p₀ :: (mid ++ [q])).foldl (fun acc z => cacheResponse acc z.1 z.2) []
          = mid ++ [q] := by
      rw [hsplit, cacheResponse_at_capacity p₀ mid q.1 q.2 hcap]
      exact mapSet_fresh mid q.1 q.2
        (cacheLookup_eq_none_of_not_mem mid q.1 hqmid)
    refine ⟨?_, ?_⟩
    · rw [hfinal, List.length_append, List.length_singleton, hmidlen]
      simp [maxCacheSize]
    · rw [hfinal]
      refine cacheLookup_eq_none_of_not_mem _ _ ?_
      simp only [List.map_append, List.mem_append, List.map_cons,
        List.map_nil, List.mem_singleton, not_or]
      exact ⟨hp0mid, hp0q⟩

/-- Witness for `responseCache_bounded_fifo`: the at-capacity eviction is
instantiated on a concrete 50-entry cache, and the 51-distinct-keys
statement on the 51 single-character keys `'0'` and `'1'..'b'`. -/
theorem responseCache_bounded_fifo_witness :
    ((("0", "v") :: (List.range 49).map
        (fun i => (String.mk [Char.ofNat (49 + i)], "v"))).length
      = maxCacheSize) ∧
    (cacheResponse (("0", "v") :: (List.range 49).map
        (fun i => (String.mk [Char.ofNat (49 + i)], "v"))) "zz" "w"
      = mapSet ((List.range 49).map
          (fun i => (String.mk [Char.ofNat (49 + i)], "v"))) "zz" "w") ∧
    (((List.range maxCacheSize).map
        (fun i => (String.mk [Char.ofNat (49 + i)], "v"))).length
      = maxCacheSize) ∧
    ((("0", "v") :: (List.range maxCacheSize).map
        (fun i => (String.mk [Char.ofNat (49 + i)], "v"))).map
        Prod.fst).Nodup ∧
    (((("0", "v") :: (List.range maxCacheSize).map
          (fun i => (String.mk [Char.ofNat (49 + i)], "v"))).foldl
        (fun acc q => cacheResponse acc q.1 q.2) []).length = maxCacheSize ∧
      cacheLookup
        ((("0", "v") :: (List.range maxCacheSize).map
            (fun i => (String.mk [Char.ofNat (49 + i)], "v"))).foldl
          (fun acc q => cacheResponse acc q.1 q.2) []) ("0", "v").1
        = none) :=
  ⟨by decide,
   responseCache_bounded_fifo.2.1 ("0", "v")
     ((List.range 49).map (fun i => (String.mk [Char.ofNat (49 + i)], "v")))
     "zz" "w" (by decide),
   by decide,
   by decide,
   responseCache_bounded_fifo.2.2 ("0", "v")
     ((List.range maxCacheSize).map
       (fun i => (String.mk [Char.ofNat (49 + i)], "v")))
     (by decide) (by decide)⟩

namespace SmolLMBrainModule

theorem find?_map_update (k v : String) :
    ∀ (c : ResponseCache), c.any (fun p => p.1 == k) = true →
    ((c.map fun p => if p.1 == k then (k, v) else p).find?
        (fun p => p.1 == k)) = some (k, v)
  | [], h => by simp at h
  | p :: rest, h => by
      cases hp : (p.1 == k) with
      | true =>
          have hpk : p.1 = k := beq_iff_eq.mp hp
          simp [List.find?_cons, hp, hpk]
      | false =>
          have hrest : rest.any (fun q => q.1 == k) = true := by
            rw [List.any_cons, hp] at h
            simpa using h
          have hif : (if (p.1 == k) = true then (k, v) else p) = p := by
            simp [hp]
          rw [List.map_cons, hif, List.find?_cons_of_neg _ (by simp [hp])]
          exact find?_map_update k v rest hrest

theorem cacheLookup_mapSet_self (c : ResponseCache) (k v : String) :
    cacheLookup (mapSet c k v) k = some v := by
  unfold mapSet
  cases h : c.any (fun p => p.1 == k) with
  | true =>
      simp only [h, if_pos]
      unfold cacheLookup
      rw [find?_map_update k v c h]
      rfl
  | false =>
      simp only [h, Bool.false_eq_true, if_false]
      unfold cacheLookup
      rw [List.find?_append]
      have hn : c.find? (fun p => p.1 == k) = none := by
        rw [List.find?_eq_none]
        intro p hp hpk
        have hcontra : c.any (fun q => q.1 == k) = true :=
          List.any_eq_true.mpr ⟨p, hp, hpk⟩
        rw [h] at hcontra
        simp at hcontra
      rw [hn]
      simp [List.find?_cons]

theorem cacheLookup_cacheResponse_self (c : ResponseCache) (k v : String) :
    cacheLookup (cacheResponse c k v) k = some v := by
  simp only [cacheResponse]
  exact cacheLookup_mapSet_self _ k v

theorem cacheLookup_some_mem {c : ResponseCache} {k v : String}
    (h : cacheLookup c k = some v) : ∃ p ∈ c, p.2 = v := by
  unfold cacheLookup at h
  cases hf : c.find? (fun q => q.1 == k) with
  | none => rw [hf] at h; simp at h
  | some p =>
      rw [hf] at h
      simp only [Option.map_some'] at h
      exact ⟨p, List.mem_of_find?_eq_some hf, Option.some.inj h⟩

theorem cacheWellFormed_mapSet {c : ResponseCache} {k v : String}
    (h : cacheWellFormed c) (hv : 15 < v.length) :
    cacheWellFormed (mapSet c k v) := by
  unfold mapSet
  split
  · intro p hp
    obtain ⟨q, hq, rfl⟩ := List.mem_map.mp hp
    cases hqk : (q.1 == k) with
    | true => simpa [hqk] using hv
    | false => simpa [hqk] using h q hq
  · intro p hp
    rcases List.mem_append.mp hp with hp | hp
    · exact h p hp
    · rw [List.mem_singleton] at hp
      rw [hp]
      exact hv

theorem cacheWellFormed_cacheResponse {c : ResponseCache} {k v : String}
    (h : cacheWellFormed c) (hv : 15 < v.length) :
    cacheWellFormed (cacheResponse c k v) := by
  simp only [cacheResponse]
  apply cacheWellFormed_mapSet _ hv
  split
  · split
    · intro p hp
      exact h p (List.Sublist.mem hp (List.eraseP_sublist _))
    · exact h
  · exact h

theorem getQuickBooksGuidance_length_pos (m : String) :
    0 < (getQuickBooksGuidance m).length := by
  simp only [getQuickBooksGuidance]
  repeat' split
  all_goals decide

end SmolLMBrainModule

/-- Claim C1: once the pipeline is past initialization (`isReady` true),
`generateResponse` yields a defined, non-empty answer text for every
message on every path — cache hit, accepted model output, or rule
fallback (totality itself is structural: every exception of the source
is caught locally, so the embedding is a function).  The cache invariant
`cacheWellFormed` (every stored answer passed the length gate) holds in
the constructed state and is preserved by every call, which grounds the
cache-hit case. -/
theorem generateResponse_total_nonempty
    (st : SmolLMBrain) (inferOutcome : Option String) (msg : String)
    (hmsg : msg ≠ "") (hready : st.isReady = true)
    (hcache : cacheWellFormed st.responseCache) :
    0 < (generateResponse st inferOutcome msg).resp.message.length ∧
    cacheWellFormed
      (generateResponse st inferOutcome msg).state.responseCache ∧
    cacheWellFormed SmolLMBrain.construct.responseCache := by
  have hconstruct : cacheWellFormed SmolLMBrain.construct.responseCache := by
    intro p hp
    simp [SmolLMBrain.construct] at hp
  cases hl : cacheLookup st.responseCache (normalizeMessage msg) with
  | some cached =>
      obtain ⟨p, hp, hpv⟩ := cacheLookup_some_mem hl
      have hlen : 15 < cached.length := hpv ▸ hcache p hp
      refine ⟨?_, ?_, hconstruct⟩
      · simp [generateResponse, hready, hl]
        omega
      · simp [generateResponse, hready, hl]
        exact hcache
  | none =>
      cases hmll : (st.model && st.llamaCpp) with
      | false =>
          refine ⟨?_, ?_, hconstruct⟩
          · simp [generateResponse, hready, hl, hmll]
            exact getQuickBooksGuidance_length_pos msg
          · simp [generateResponse, hready, hl, hmll]
            exact hcache
      | true =>
          cases inferOutcome with
          | none =>
              refine ⟨?_, ?_, hconstruct⟩
              · simp [generateResponse, hready, hl, hmll]
                exact getQuickBooksGuidance_length_pos msg
              · simp [generateResponse, hready, hl, hmll]
                exact hcache
          | some raw =>
              by_cases hgate : 15 < (cleanResponse raw).length ∧
                  isGenericResponse (cleanResponse raw) = false
              · refine ⟨?_, ?_, hconstruct⟩
                · simp [generateResponse, hready, hl, hmll, hgate]
                  have := hgate.1
                  omega
                · simp [generateResponse, hready, hl, hmll, hgate]
                  exact cacheWellFormed_cacheResponse hcache hgate.1
              · refine ⟨?_, ?_, hconstruct⟩
                · simp [generateResponse, hready, hl, hmll, hgate]
                  exact getQuickBooksGuidance_length_pos msg
                · simp [generateResponse, hready, hl, hmll, hgate]
                  exact hcache

/-- Witness for `generateResponse_total_nonempty`: a ready pipeline with
an empty cache and no model, on the message `"hello"`. -/
theorem generateResponse_total_nonempty_witness :
    ("hello" : String) ≠ "" ∧
    (SmolLMBrain.mk false true false false [] false).isReady = true ∧
    0 < (generateResponse (SmolLMBrain.mk false true false false [] false)
        none "hello").resp.message.length :=
  ⟨by decide, rfl,
   (generateResponse_total_nonempty
      (SmolLMBrain.mk false true false false [] false) none "hello"
      (by decide) rfl (by intro p hp; simp at hp)).1⟩

/-- Claim C3: if a call produced and cached a model-sourced answer, any
later call whose message normalizes to the same key returns exactly that
text with source `cache`, leaves the state unchanged, and performs no
model or retrieval work (the lookup precedes them). -/
theorem generateResponse_cache_determinism
    (st : SmolLMBrain) (infer1 infer2 : Option String) (msg1 msg2 : String)
    (hsrc : (generateResponse st infer1 msg1).resp.source
      = some ResponseSource.smollm2Local)
    (hkey : normalizeMessage msg2 = normalizeMessage msg1) :
    generateResponse (generateResponse st infer1 msg1).state infer2 msg2
      = ⟨⟨true, (generateResponse st infer1 msg1).resp.message,
          some ResponseSource.cache⟩,
         (generateResponse st infer1 msg1).state, false⟩ := by
  cases hr : st.isReady with
  | false => simp [generateResponse, hr] at hsrc
  | true =>
      cases hl : cacheLookup st.responseCache (normalizeMessage msg1) with
      | some cached => simp [generateResponse, hr, hl] at hsrc
      | none =>
          cases hm : (st.model && st.llamaCpp) with
          | false => simp [generateResponse, hr, hl, hm] at hsrc
          | true =>
              cases infer1 with
              | none => simp [generateResponse, hr, hl, hm] at hsrc
              | some raw =>
                  by_cases hgate : 15 < (cleanResponse raw).length ∧
                      isGenericResponse (cleanResponse raw) = false
                  · have hlook := cacheLookup_cacheResponse_self
                      st.responseCache (normalizeMessage msg1)
                      (cleanResponse raw)
                    simp [generateResponse, hr, hl, hm, hgate, hkey, hlook]
                  · simp [generateResponse, hr, hl, hm, hgate] at hsrc

/-- Witness for `generateResponse_cache_determinism`: a ready pipeline
with a loaded model answers `"bank help"` from the model, and the
normalization-equivalent `"Bank help!"` is then served from the cache. -/
theorem generateResponse_cache_determinism_witness :
    (generateResponse (SmolLMBrain.mk false true true true [] false)
        (some "Check your bank feed settings today for any errors")
        "bank help").resp.source = some ResponseSource.smollm2Local ∧
    normalizeMessage "Bank help!" = normalizeMessage "bank help" ∧
    generateResponse
        (generateResponse (SmolLMBrain.mk false true true true [] false)
          (some "Check your bank feed settings today for any errors")
          "bank help").state none "Bank help!"
      = ⟨⟨true,
          (generateResponse (SmolLMBrain.mk false true true true [] false)
            (some "Check your bank feed settings today for any errors")
            "bank help").resp.message, some ResponseSource.cache⟩,
         (generateResponse (SmolLMBrain.mk false true true true [] false)
           (some "Check your bank feed settings today for any errors")
           "bank help").state, false⟩ :=
  ⟨by decide, by decide,
   generateResponse_cache_determinism
     (SmolLMBrain.mk false true true true [] false)
     (some "Check your bank feed settings today for any errors") none
     "bank help" "Bank help!" (by decide) (by decide)⟩

/-- Claim C7: any candidate model output whose cleaned text has length at
most 15 is rejected by the quality gate regardless of content, and the
call returns the rule-based answer instead of the model text. -/
theorem qualityGate_rejects_short
    (st : SmolLMBrain) (msg raw : String)
    (hready : st.isReady = true)
    (hmiss : cacheLookup st.responseCache (normalizeMessage msg) = none)
    (hshort : (cleanResponse raw).length ≤ 15) :
    (generateResponse st (some raw) msg).resp
      = ⟨true, getQuickBooksGuidance msg,
          some ResponseSource.enhancedRules⟩ := by
  have hnot : ¬ (15 < (cleanResponse raw).length ∧
      isGenericResponse (cleanResponse raw) = false) := by
    intro hcon
    exact absurd hcon.1 (Nat.not_lt.mpr hshort)
  cases hm : (st.model && st.llamaCpp) with
  | false => simp [generateResponse, hready, hmiss, hm]
  | true => simp [generateResponse, hready, hmiss, hm, hnot]

/-- Witness for `qualityGate_rejects_short`: the short model output
`"Hi."` on a ready pipeline with a loaded model and empty cache. -/
theorem qualityGate_rejects_short_witness :
    (cleanResponse "Hi.").length ≤ 15 ∧
    (generateResponse (SmolLMBrain.mk false true true true [] false)
        (some "Hi.") "hello").resp
      = ⟨true, getQuickBooksGuidance "hello",
          some ResponseSource.enhancedRules⟩ :=
  ⟨by decide,
   qualityGate_rejects_short (SmolLMBrain.mk false true true true [] false)
     "hello" "Hi." rfl (by decide) (by decide)⟩

/-- Claim C8: `identifyRelevantCategories` computes exactly what the spec
describes — each category scores the number of input keywords mapping to
it in the index's keyword table, and the result is the categories with
positive score, sorted descending with ties in declared order, truncated
to the top two.  The hypothesis reflects the data model: the index maps
each keyword to a *set* of categories (no duplicates). -/
theorem identifyRelevantCategories_matches_spec
    (keywords : List String)
    (idx : String → Option (List Category))
    (hnd : ∀ k cs, idx k = some cs → cs.Nodup) :
    identifyRelevantCategories keywords idx
      = identifyRelevantCategoriesSpec keywords idx := by
  have hscore : ∀ c, categoryScore keywords idx c
      = keywords.countP fun k =>
          match idx k with
          | some cs => decide (c ∈ cs)
          | none => false := by
    intro c
    induction keywords with
    | nil => simp [categoryScore]
    | cons k rest ih =>
        rw [List.countP_cons]
        unfold categoryScore at ih ⊢
        rw [List.map_cons, List.sum_cons, ih]
        have hhead : ((idx k).getD []).count c
            = if (match idx k with
                | some cs => decide (c ∈ cs)
                | none => false) = true then 1 else 0 := by
          cases hik : idx k with
          | none => simp
          | some cs =>
              simp only [Option.getD_some]
              by_cases hmem : c ∈ cs
              · simp [hmem, List.count_eq_one_of_mem (hnd k cs hik) hmem]
              · simp [hmem, List.count_eq_zero_of_not_mem hmem]
        omega
  unfold identifyRelevantCategories identifyRelevantCategoriesSpec
  simp only [hscore]

/-- Witness for `identifyRelevantCategories_matches_spec`: a concrete
two-entry index whose values are duplicate-free, on which both the code
and the spec description produce `[banking, invoicing]`; the last
conjunct exercises an equal-score tie (`banking` and `invoicing` both
score 1) and checks that the tie is broken by the declared category
order. -/
theorem identifyRelevantCategories_matches_spec_witness :
    (∀ k cs,
      (fun k => if k = "bank" then some [Category.banking]
        else if k = "invoice" then
          some [Category.invoicing, Category.banking]
        else none) k = some cs → cs.Nodup) ∧
    identifyRelevantCategories ["bank", "invoice", "extra"]
        (fun k => if k = "bank" then some [Category.banking]
          else if k = "invoice" then
            some [Category.invoicing, Category.banking]
          else none)
      = identifyRelevantCategoriesSpec ["bank", "invoice", "extra"]
        (fun k => if k = "bank" then some [Category.banking]
          else if k = "invoice" then
            some [Category.invoicing, Category.banking]
          else none) ∧
    identifyRelevantCategories ["bank", "invoice", "extra"]
        (fun k => if k = "bank" then some [Category.banking]
          else if k = "invoice" then
            some [Category.invoicing, Category.banking]
          else none)
      = [Category.banking, Category.invoicing] ∧
    identifyRelevantCategories ["invoice", "bank"]
        (fun k => if k = "bank" then some [Category.banking]
          else if k = "invoice" then some [Category.invoicing]
          else none)
      = [Category.banking, Category.invoicing] := by
  have hnd : ∀ k cs,
      (fun k => if k = "bank" then some [Category.banking]
        else if k = "invoice" then
          some [Category.invoicing, Category.banking]
        else none) k = some cs → cs.Nodup := by
    intro k cs h
    by_cases h1 : k = "bank"
    · simp [h1] at h
      exact h ▸ (by decide)
    · by_cases h2 : k = "invoice"
      · simp [h1, h2] at h
        exact h ▸ (by decide)
      · simp [h1, h2] at h
  refine ⟨hnd,
    identifyRelevantCategories_matches_spec ["bank", "invoice", "extra"] _
      hnd, by decide, by decide⟩

namespace LocalRAG

theorem lev_nil_left : ∀ ys : List Char,
    levenshtein Levenshtein.defaultCost ([] : List Char) ys = ys.length
  | [] => by simp
  | y :: ys => by
      rw [levenshtein_nil_cons, lev_nil_left ys]
      simp [Levenshtein.defaultCost]
      omega

theorem lev_nil_right : ∀ xs : List Char,
    levenshtein Levenshtein.defaultCost xs ([] : List Char) = xs.length
  | [] => by simp
  | x :: xs => by
      rw [levenshtein_cons_nil, lev_nil_right xs]
      simp [Levenshtein.defaultCost]
      omega

theorem lev_snoc_snoc (x y : Char) :
    ∀ (xs ys : List Char),
    levenshtein Levenshtein.defaultCost (xs ++ [x]) (ys ++ [y])
      = min (levenshtein Levenshtein.defaultCost (xs ++ [x]) ys + 1)
        (min (levenshtein Levenshtein.defaultCost xs (ys ++ [y]) + 1)
          (levenshtein Levenshtein.defaultCost xs ys
            + if x = y then 0 else 1)) := by
  intro xs
  induction xs with
  | nil =>
      intro ys
      induction ys with
      | nil =>
          simp only [List.nil_append, levenshtein_cons_cons,
            levenshtein_nil_nil, levenshtein_nil_cons, levenshtein_cons_nil,
            Levenshtein.defaultCost_delete, Levenshtein.defaultCost_insert,
            Levenshtein.defaultCost_substitute]
          by_cases hxy : x = y <;> simp [hxy]
      | cons y' ys' ihy =>
          simp only [List.nil_append, List.cons_append] at ihy ⊢
          simp only [lev_nil_left, List.length_append, List.length_cons,
            List.length_singleton, List.length_nil] at ihy
          simp only [levenshtein_cons_cons, Levenshtein.defaultCost_delete,
            Levenshtein.defaultCost_insert,
            Levenshtein.defaultCost_substitute, lev_nil_left,
            List.length_append, List.length_cons, List.length_singleton,
            List.length_nil]
          rw [ihy]
          by_cases h1 : x = y <;> by_cases h2 : x = y' <;>
            simp only [h1, h2, if_true, if_false, reduceIte] <;>
            (simp only [← min_add_add_left, ← min_add_add_right]
             apply le_antisymm <;> simp only [le_min_iff, min_le_iff] <;>
               omega)
  | cons x' xs' ihx =>
      intro ys
      induction ys with
      | nil =>
          have h2 := ihx []
          simp only [List.nil_append] at h2
          simp only [lev_nil_right, lev_nil_left, List.length_append,
            List.length_cons, List.length_singleton, List.length_nil] at h2
          simp only [List.nil_append, List.cons_append]
          simp only [levenshtein_cons_cons, Levenshtein.defaultCost_delete,
            Levenshtein.defaultCost_insert,
            Levenshtein.defaultCost_substitute, lev_nil_right,
            lev_nil_left, List.length_append, List.length_cons,
            List.length_singleton, List.length_nil]
          rw [h2]
          by_cases h1 : x = y <;> by_cases h2 : x' = y <;>
            simp only [h1, h2, if_true, if_false, reduceIte] <;>
            (simp only [← min_add_add_left, ← min_add_add_right]
             apply le_antisymm <;> simp only [le_min_iff, min_le_iff] <;>
               omega)
      | cons y' ys' ihy =>
          have e1 := ihx (y' :: ys')
          have e2 := ihx ys'
          simp only [List.cons_append] at e1 e2 ihy ⊢
          rw [levenshtein_cons_cons]
          rw [e1, ihy, e2]
          rw [levenshtein_cons_cons x' (xs' ++ [x]) y' ys']
          rw [levenshtein_cons_cons x' xs' y' (ys' ++ [y])]
          rw [levenshtein_cons_cons x' xs' y' ys']
          simp only [Levenshtein.defaultCost_delete,
            Levenshtein.defaultCost_insert,
            Levenshtein.defaultCost_substitute]
          by_cases h1 : x = y <;> by_cases h2 : x' = y' <;>
            simp only [h1, h2, if_true, if_false, reduceIte] <;>
            (simp only [← min_add_add_left, ← min_add_add_right]
             apply le_antisymm <;> simp only [le_min_iff, min_le_iff] <;>
               omega)

theorem lev_reverse (xs : List Char) :
    ∀ ys : List Char,
    levenshtein Levenshtein.defaultCost xs.reverse ys.reverse
      = levenshtein Levenshtein.defaultCost xs ys := by
  induction xs with
  | nil =>
      intro ys
      simp [lev_nil_left]
  | cons x xs ihx =>
      intro ys
      induction ys with
      | nil =>
          simp [lev_nil_right]
          omega
      | cons y ys ihy =>
          rw [List.reverse_cons, List.reverse_cons, lev_snoc_snoc]
          have h1 := ihy
          rw [List.reverse_cons] at h1
          have h2 := ihx (y :: ys)
          rw [List.reverse_cons] at h2
          have h3 := ihx ys
          rw [h1, h2, h3, levenshtein_cons_cons]
          simp only [Levenshtein.defaultCost_delete,
            Levenshtein.defaultCost_insert,
            Levenshtein.defaultCost_substitute]
          by_cases hxy : x = y <;> simp only [hxy, reduceIte] <;> omega

theorem levMatrix_eq_lev (a b : List Char) :
    ∀ j, j ≤ b.length → ∀ i, i ≤ a.length →
    levMatrix a b j i
      = levenshtein Levenshtein.defaultCost
          ((a.take i).reverse) ((b.take j).reverse) := by
  intro j
  induction j with
  | zero =>
      intro _ i hi
      simp only [levMatrix, List.take_zero, List.reverse_nil]
      rw [lev_nil_right]
      simp [List.length_take, Nat.min_eq_left hi]
  | succ j ihj =>
      intro hj i
      have hj' : j ≤ b.length := Nat.le_of_succ_le hj
      have hjb : j < b.length := hj
      have htb : (b.take (j + 1)).reverse = b[j] :: (b.take j).reverse := by
        rw [List.take_succ]
        simp [List.getElem?_eq_getElem hjb]
      induction i with
      | zero =>
          intro _
          show levMatrixRow a b (levMatrix a b j) j 0 = _
          rw [levMatrixRow, htb]
          rw [show ((a.take 0).reverse : List Char) = [] by simp]
          rw [lev_nil_left]
          simp [List.length_take, Nat.min_eq_left hj']
      | succ i ihi =>
          intro hi
          have hia : i < a.length := hi
          have hi' : i ≤ a.length := Nat.le_of_succ_le hi
          have hta : (a.take (i + 1)).reverse
              = a[i] :: (a.take i).reverse := by
            rw [List.take_succ]
            simp [List.getElem?_eq_getElem hia]
          have e1 := ihi hi'
          have e2 := ihj hj' (i + 1) hi
          have e3 := ihj hj' i hi'
          rw [htb] at e1
          rw [hta] at e2
          have hrow : levMatrixRow a b (levMatrix a b j) j i
              = levMatrix a b (j + 1) i := rfl
          show levMatrixRow a b (levMatrix a b j) j (i + 1) = _
          rw [levMatrixRow, hrow]
          rw [hta, htb, levenshtein_cons_cons]
          rw [← e1, ← e2, ← e3]
          have hga : a.getD i ' ' = a[i] := by
            rw [List.getD_eq_getElem?_getD, List.getElem?_eq_getElem hia]
            rfl
          have hgb : b.getD j ' ' = b[j] := by
            rw [List.getD_eq_getElem?_getD, List.getElem?_eq_getElem hjb]
            rfl
          simp only [hga, hgb, Levenshtein.defaultCost_delete,
            Levenshtein.defaultCost_insert,
            Levenshtein.defaultCost_substitute]
          by_cases heq : a[i] = b[j] <;> simp only [heq, reduceIte] <;>
            omega

theorem lev_self : ∀ xs : List Char,
    levenshtein Levenshtein.defaultCost xs xs = 0
  | [] => by simp
  | x :: xs => by
      rw [levenshtein_cons_cons, lev_self xs]
      simp

end LocalRAG

/-- Claim C9: `calculateLevenshteinDistance` computes the classic
unit-cost edit distance: for every pair of strings it equals Mathlib's
reference `levenshtein` with the default (all-ones) cost structure; in
particular the distance of any string to itself is 0, and
`bank`/`banc` and `bank`/`bunk` are both at distance 1. -/
theorem calculateLevenshteinDistance_correct :
    (∀ a b : String,
      calculateLevenshteinDistance a b
        = levenshtein Levenshtein.defaultCost a.toList b.toList) ∧
    (∀ s : String, calculateLevenshteinDistance s s = 0) ∧
    calculateLevenshteinDistance "bank" "banc" = 1 ∧
    calculateLevenshteinDistance "bank" "bunk" = 1 := by
  have hmain : ∀ a b : String, calculateLevenshteinDistance a b
      = levenshtein Levenshtein.defaultCost a.toList b.toList := by
    intro a b
    unfold calculateLevenshteinDistance
    rw [levMatrix_eq_lev a.toList b.toList b.toList.length le_rfl
      a.toList.length le_rfl]
    rw [List.take_length, List.take_length]
    exact lev_reverse a.toList b.toList
  refine ⟨hmain, ?_, by decide, by decide⟩
  intro s
  rw [hmain]
  exact lev_self s.toList
